import Mathlib

/-!
Verification of the `ratelimit-nodejs` sliding-window rate limiter.

The source keeps two JS `Map`s inside the middleware closure:
  * `requestStore   : Map<key, number[]>` — accepted-request timestamps per key;
  * `cooldownStore  : Map<key, number>`   — `blockedUntil` timestamp per key.

We model a `Map` as an association list observed only through
`get` / `set` / `del` / presence (`isSome` of `get`), which is the whole
interface the source uses.  Timestamps and configuration numbers are `Int`
(JS numbers used as integral millisecond values); `Math.ceil(x / 1000)` on
such values is integer ceiling division.
-/

namespace RateLimit

/-- Association-list model of a JS `Map` keyed by strings. -/
abbrev Store (V : Type) : Type := List (String × V)

namespace Store

/-- `Map.get`: value at the first matching key, if any. -/
def get {V : Type} : Store V → String → Option V
  | [], _ => none
  | (k', v) :: rest, k => if k' = k then some v else get rest k

/-- `Map.delete`: remove every binding of `k` (a JS `Map` holds at most one). -/
def del {V : Type} : Store V → String → Store V
  | [], _ => []
  | (k', v) :: rest, k => if k' = k then del rest k else (k', v) :: del rest k

/-- `Map.set`: bind `k` to `v`, replacing any previous binding. -/
def set {V : Type} (s : Store V) (k : String) (v : V) : Store V :=
  (k, v) :: del s k

end Store

/-- Outcome of one middleware call: `next()` was invoked, or a 429-style
denial carrying the `remainingTime` (seconds) field of the JSON body. -/
inductive Decision : Type
  | Allow : Decision
  | Deny : Int → Decision
deriving DecidableEq

/-- The numeric configuration of `createExpressLimiter`
(`max`, `windowMs`, `cooldownMs`). -/
structure Config : Type where
  max : Int
  windowMs : Int
  cooldownMs : Int
deriving DecidableEq

/-- The mutable state captured by the middleware closure: both stores. -/
structure LimiterState : Type where
  requestStore : Store (List Int)
  cooldownStore : Store Int
deriving DecidableEq

/-- Both stores start empty (`new Map()`). -/
def emptyState : LimiterState := ⟨[], []⟩

/-- `Math.ceil(a / b)` for integral JS numbers, `b > 0`:
integer ceiling division (`/` on `Int` is Euclidean division, which for a
positive divisor is floor division). -/
def ceilDiv (a b : Int) : Int := -((-a) / b)

/-- `requestStore.get(key).filter(ts => now - ts < windowMs)`. -/
def pruneWindow (windowMs now : Int) (w : List Int) : List Int :=
  w.filter (fun ts => decide (now - ts < windowMs))

/-- `if (!requestStore.has(key)) requestStore.set(key, [])`. -/
def ensureEntry (rs : Store (List Int)) (key : String) : Store (List Int) :=
  if (Store.get rs key).isSome then rs else Store.set rs key []

/-- The part of the middleware body after the cooldown check: ensure a
window entry, prune a copy of it, then either deny at threshold (creating a
cooldown only if absent, and leaving the stored window as it was) or append
`now` to the pruned copy and store it back. -/
def windowStep (cfg : Config) (st : LimiterState) (key : String) (now : Int) :
    Decision × LimiterState :=
  let rs := ensureEntry st.requestStore key
  let timestamps := pruneWindow cfg.windowMs now ((Store.get rs key).getD [])
  if cfg.max ≤ (timestamps.length : Int) then
    let cs := if (Store.get st.cooldownStore key).isSome then st.cooldownStore
              else Store.set st.cooldownStore key (now + cfg.cooldownMs)
    (Decision.Deny (ceilDiv ((Store.get cs key).getD 0 - now) 1000), ⟨rs, cs⟩)
  else
    (Decision.Allow, ⟨Store.set rs key (timestamps ++ [now]), st.cooldownStore⟩)

/-- One non-bypassed call of the middleware `rateLimiter(req, res, next)`
for the derived `key` at time `now`: first the cooldown check (active →
deny untouched; elapsed → delete both records and fall through), then the
window step. -/
def rateLimiter (cfg : Config) (st : LimiterState) (key : String) (now : Int) :
    Decision × LimiterState :=
  match Store.get st.cooldownStore key with
  | some blockedUntil =>
      if 0 < blockedUntil - now then
        (Decision.Deny (ceilDiv (blockedUntil - now) 1000), st)
      else
        windowStep cfg ⟨Store.del st.requestStore key, Store.del st.cooldownStore key⟩ key now
  | none => windowStep cfg st key now

/-- Run a sequence of non-bypassed calls, collecting the decisions. -/
def runCalls (cfg : Config) (st : LimiterState) :
    List (String × Int) → List Decision × LimiterState
  | [] => ([], st)
  | (key, now) :: rest =>
      let out := rateLimiter cfg st key now
      let tail := runCalls cfg out.2 rest
      (out.1 :: tail.1, tail.2)

/-- `createExpressLimiter(options)`: the middleware closure, as the state
transformer it denotes once `skip`/`keyGen` have been evaluated. -/
def createExpressLimiter (cfg : Config) :
    LimiterState → String → Int → Decision × LimiterState :=
  fun st key now => rateLimiter cfg st key now

/-- The argument object of the dispatch wrapper: the `framework` tag plus
the numeric limiter configuration. -/
structure Options : Type where
  framework : String
  cfg : Config

/-- `rateLimit(obj)` from `src/ratelimit.js`: return the Express limiter
when `obj.framework === "express"`; any other tag falls off the end of the
function and yields `undefined` (`none`) — no error is raised. -/
def rateLimit (obj : Options) :
    Option (LimiterState → String → Int → Decision × LimiterState) :=
  if obj.framework = "express" then some (createExpressLimiter obj.cfg) else none

/-! ### Basic lemmas about the `Map` model -/

@[simp]
theorem Store.get_del_self {V : Type} (s : Store V) (k : String) :
    Store.get (Store.del s k) k = none := by
  induction s with
  | nil => rfl
  | cons p rest ih =>
      obtain ⟨a, v⟩ := p
      by_cases h : a = k
      · simpa [Store.del, h] using ih
      · simpa [Store.del, Store.get, h] using ih

theorem Store.get_del_ne {V : Type} (s : Store V) (k k' : String) (h : k' ≠ k) :
    Store.get (Store.del s k) k' = Store.get s k' := by
  induction s with
  | nil => rfl
  | cons p rest ih =>
      obtain ⟨a, v⟩ := p
      by_cases ha : a = k
      · subst ha
        simpa [Store.del, Store.get, Ne.symm h] using ih
      · by_cases ha' : a = k'
        · simp [Store.del, Store.get, ha, ha', h]
        · simp [Store.del, Store.get, ha, ha', ih]

@[simp]
theorem Store.get_set_self {V : Type} (s : Store V) (k : String) (v : V) :
    Store.get (Store.set s k v) k = some v := by
  simp [Store.set, Store.get]

theorem Store.get_set_ne {V : Type} (s : Store V) (k : String) (v : V) (k' : String)
    (h : k' ≠ k) :
    Store.get (Store.set s k v) k' = Store.get s k' := by
  simp [Store.set, Store.get, Ne.symm h, Store.get_del_ne s k k' h]

@[simp]
theorem ensureEntry_get_self (rs : Store (List Int)) (key : String) :
    Store.get (ensureEntry rs key) key = some ((Store.get rs key).getD []) := by
  unfold ensureEntry
  cases h : Store.get rs key with
  | none => simp [h]
  | some w => simp [h]

theorem ensureEntry_get_ne (rs : Store (List Int)) (key k' : String) (h : k' ≠ key) :
    Store.get (ensureEntry rs key) k' = Store.get rs k' := by
  unfold ensureEntry
  split
  · rfl
  · exact Store.get_set_ne rs key [] k' h

/-! ### Lemmas about pruning and the ceiling division -/

theorem pruneWindow_eq_self {windowMs now : Int} {w : List Int}
    (h : ∀ t ∈ w, now - t < windowMs) :
    pruneWindow windowMs now w = w := by
  rw [pruneWindow, List.filter_eq_self]
  intro a ha
  simpa using h a ha

theorem mem_pruneWindow {windowMs now : Int} {w : List Int} {t : Int}
    (h : t ∈ pruneWindow windowMs now w) : t ∈ w ∧ now - t < windowMs := by
  have hm := List.mem_filter.mp h
  exact ⟨hm.1, by simpa using hm.2⟩

theorem pruneWindow_length_le (windowMs now : Int) (w : List Int) :
    (pruneWindow windowMs now w).length ≤ w.length :=
  List.length_filter_le _ _

theorem pruneWindow_full {windowMs now : Int} {w : List Int}
    (h : w.length ≤ (pruneWindow windowMs now w).length) :
    ∀ t ∈ w, now - t < windowMs := by
  have hsub : List.Sublist (pruneWindow windowMs now w) w := List.filter_sublist w
  have heq : pruneWindow windowMs now w = w :=
    hsub.eq_of_length (le_antisymm (pruneWindow_length_le _ _ _) h)
  intro t ht
  exact (mem_pruneWindow (heq ▸ ht)).2

/-! ### Characterization of the window step -/

theorem windowStep_allow (cfg : Config) (st : LimiterState) (key : String) (now : Int)
    (h : ¬ cfg.max ≤
      ((pruneWindow cfg.windowMs now ((Store.get st.requestStore key).getD [])).length : Int)) :
    windowStep cfg st key now
      = (Decision.Allow,
         ⟨Store.set (ensureEntry st.requestStore key) key
            (pruneWindow cfg.windowMs now ((Store.get st.requestStore key).getD []) ++ [now]),
          st.cooldownStore⟩) := by
  simp only [windowStep, ensureEntry_get_self, Option.getD_some]
  rw [if_neg h]

theorem windowStep_deny (cfg : Config) (st : LimiterState) (key : String) (now : Int)
    (hc : Store.get st.cooldownStore key = none)
    (h : cfg.max ≤
      ((pruneWindow cfg.windowMs now ((Store.get st.requestStore key).getD [])).length : Int)) :
    windowStep cfg st key now
      = (Decision.Deny (ceilDiv cfg.cooldownMs 1000),
         ⟨ensureEntry st.requestStore key,
          Store.set st.cooldownStore key (now + cfg.cooldownMs)⟩) := by
  have harith : now + cfg.cooldownMs - now = cfg.cooldownMs := by ring
  simp only [windowStep, ensureEntry_get_self, Option.getD_some]
  rw [if_pos h]
  simp [hc, harith]

theorem windowStep_frame (cfg : Config) (st : LimiterState) (key : String) (now : Int)
    (k' : String) (h : k' ≠ key) :
    Store.get (windowStep cfg st key now).2.requestStore k'
        = Store.get st.requestStore k' ∧
    Store.get (windowStep cfg st key now).2.cooldownStore k'
        = Store.get st.cooldownStore k' := by
  simp only [windowStep, ensureEntry_get_self, Option.getD_some]
  split_ifs with h1 h2
  · exact ⟨ensureEntry_get_ne _ _ _ h, rfl⟩
  · exact ⟨ensureEntry_get_ne _ _ _ h, Store.get_set_ne _ _ _ _ h⟩
  · refine ⟨?_, rfl⟩
    rw [Store.get_set_ne _ _ _ _ h]
    exact ensureEntry_get_ne _ _ _ h

theorem rateLimiter_frame (cfg : Config) (st : LimiterState) (key : String) (now : Int)
    (k' : String) (h : k' ≠ key) :
    Store.get (rateLimiter cfg st key now).2.requestStore k'
        = Store.get st.requestStore k' ∧
    Store.get (rateLimiter cfg st key now).2.cooldownStore k'
        = Store.get st.cooldownStore k' := by
  cases hcd : Store.get st.cooldownStore key with
  | none =>
      simp only [rateLimiter, hcd]
      exact windowStep_frame cfg st key now k' h
  | some blockedUntil =>
      by_cases hact : 0 < blockedUntil - now
      · simp [rateLimiter, hcd, hact]
      · simp only [rateLimiter, hcd]
        rw [if_neg hact]
        have hframe := windowStep_frame cfg
          ⟨Store.del st.requestStore key, Store.del st.cooldownStore key⟩ key now k' h
        rw [hframe.1, hframe.2]
        exact ⟨Store.get_del_ne _ _ _ h, Store.get_del_ne _ _ _ h⟩

theorem one_le_ceilDiv {a : Int} (h : 1 ≤ a) : 1 ≤ ceilDiv a 1000 := by
  have h2 : (-a) / 1000 ≤ (-1 : Int) / 1000 :=
    Int.ediv_le_ediv (by norm_num) (by omega)
  have h3 : ((-1 : Int)) / 1000 = -1 := by decide
  unfold ceilDiv
  omega

theorem ensureEntry_of_isSome (rs : Store (List Int)) (key : String)
    (h : (Store.get rs key).isSome) : ensureEntry rs key = rs := by
  unfold ensureEntry
  rw [if_pos h]

theorem windowStep_untracked (cfg : Config) (st : LimiterState) (key : String) (now : Int)
    (h : Store.get st.requestStore key = none) (hmax : 1 ≤ cfg.max) :
    windowStep cfg st key now
      = (Decision.Allow,
         ⟨Store.set (ensureEntry st.requestStore key) key [now], st.cooldownStore⟩) := by
  have hp : pruneWindow cfg.windowMs now ((Store.get st.requestStore key).getD []) = [] := by
    rw [h]
    rfl
  have hcond : ¬ cfg.max ≤
      ((pruneWindow cfg.windowMs now ((Store.get st.requestStore key).getD [])).length : Int) := by
    rw [hp]
    simp only [List.length_nil, Nat.cast_zero]
    omega
  rw [windowStep_allow cfg st key now hcond, hp]
  rfl

theorem windowStep_requestStore_deny (cfg : Config) (st : LimiterState) (key : String)
    (now : Int)
    (h : cfg.max ≤
      ((pruneWindow cfg.windowMs now ((Store.get st.requestStore key).getD [])).length : Int)) :
    (windowStep cfg st key now).2.requestStore = ensureEntry st.requestStore key := by
  simp only [windowStep, ensureEntry_get_self, Option.getD_some]
  rw [if_pos h]

theorem windowStep_fst (cfg : Config) (st : LimiterState) (key : String) (now : Int) :
    (windowStep cfg st key now).1 =
      if cfg.max ≤
          ((pruneWindow cfg.windowMs now ((Store.get st.requestStore key).getD [])).length : Int)
      then Decision.Deny (ceilDiv
        ((match Store.get st.cooldownStore key with
          | some blockedUntil => blockedUntil
          | none => now + cfg.cooldownMs) - now) 1000)
      else Decision.Allow := by
  cases hc : Store.get st.cooldownStore key with
  | none =>
      simp only [windowStep, ensureEntry_get_self, Option.getD_some, hc,
        Option.isSome_none, Bool.false_eq_true, if_false]
      split_ifs with h
      · simp
      · rfl
  | some blockedUntil =>
      simp only [windowStep, ensureEntry_get_self, Option.getD_some, hc,
        Option.isSome_some, if_true]
      split_ifs with h
      · simp [hc]
      · rfl

/-! ### Claim theorems -/

/-- Claim C3: once a cooldown with `blockedUntil - now > 0` is stored for a
key, a call at such a `now` returns the denial computed from the stored
`blockedUntil` and leaves the entire state — both stores, all keys — exactly
as it was, so the stored `blockedUntil` is never changed. -/
theorem active_cooldown_untouched (cfg : Config) (st : LimiterState) (key : String)
    (now blockedUntil : Int)
    (hcd : Store.get st.cooldownStore key = some blockedUntil)
    (hact : 0 < blockedUntil - now) :
    rateLimiter cfg st key now
      = (Decision.Deny (ceilDiv (blockedUntil - now) 1000), st) := by
  simp [rateLimiter, hcd, hact]

/-- Witness for `active_cooldown_untouched` at a concrete blocked state. -/
theorem active_cooldown_untouched_witness :
    rateLimiter ⟨3, 1000, 2000⟩ ⟨[], [("K", 100)]⟩ "K" 50
      = (Decision.Deny (ceilDiv (100 - 50) 1000), ⟨[], [("K", 100)]⟩) :=
  active_cooldown_untouched ⟨3, 1000, 2000⟩ ⟨[], [("K", 100)]⟩ "K" 50 100
    (by decide) (by decide)

/-- Claim C2: a call arriving once the stored cooldown has elapsed
(`blockedUntil - now ≤ 0`, including `now = blockedUntil` exactly) behaves
exactly as the same call on the state with both of the key's records
deleted, and with `max ≥ 1` it allows the request, leaving the key's window
holding only `now` and no cooldown record. -/
theorem cooldown_expiry_resets (cfg : Config) (st : LimiterState) (key : String)
    (now blockedUntil : Int)
    (hcd : Store.get st.cooldownStore key = some blockedUntil)
    (helapsed : blockedUntil - now ≤ 0) (hmax : 1 ≤ cfg.max) :
    rateLimiter cfg st key now
      = rateLimiter cfg
          ⟨Store.del st.requestStore key, Store.del st.cooldownStore key⟩ key now ∧
    (rateLimiter cfg st key now).1 = Decision.Allow ∧
    Store.get (rateLimiter cfg st key now).2.requestStore key = some [now] ∧
    Store.get (rateLimiter cfg st key now).2.cooldownStore key = none := by
  have hclear : rateLimiter cfg st key now
      = windowStep cfg
          ⟨Store.del st.requestStore key, Store.del st.cooldownStore key⟩ key now := by
    simp only [rateLimiter, hcd]
    rw [if_neg (by omega)]
  have hrhs : rateLimiter cfg
      ⟨Store.del st.requestStore key, Store.del st.cooldownStore key⟩ key now
      = windowStep cfg
          ⟨Store.del st.requestStore key, Store.del st.cooldownStore key⟩ key now := by
    simp only [rateLimiter, Store.get_del_self]
  have hws := windowStep_untracked cfg
    ⟨Store.del st.requestStore key, Store.del st.cooldownStore key⟩ key now
    (Store.get_del_self _ _) hmax
  refine ⟨hclear.trans hrhs.symm, ?_, ?_, ?_⟩
  · rw [hclear, hws]
  · rw [hclear, hws]
    exact Store.get_set_self _ _ _
  · rw [hclear, hws]
    exact Store.get_del_self _ _

/-- Witness for `cooldown_expiry_resets`: the spec scenario step 4, a key
blocked until `2300` seen again at `2500`. -/
theorem cooldown_expiry_resets_witness :
    rateLimiter ⟨3, 1000, 2000⟩ ⟨[("K", [0, 100, 200])], [("K", 2300)]⟩ "K" 2500
      = rateLimiter ⟨3, 1000, 2000⟩
          ⟨Store.del [("K", [0, 100, 200])] "K", Store.del [("K", 2300)] "K"⟩ "K" 2500 ∧
    (rateLimiter ⟨3, 1000, 2000⟩ ⟨[("K", [0, 100, 200])], [("K", 2300)]⟩ "K" 2500).1
      = Decision.Allow ∧
    Store.get (rateLimiter ⟨3, 1000, 2000⟩
        ⟨[("K", [0, 100, 200])], [("K", 2300)]⟩ "K" 2500).2.requestStore "K"
      = some [2500] ∧
    Store.get (rateLimiter ⟨3, 1000, 2000⟩
        ⟨[("K", [0, 100, 200])], [("K", 2300)]⟩ "K" 2500).2.cooldownStore "K"
      = none :=
  cooldown_expiry_resets ⟨3, 1000, 2000⟩ ⟨[("K", [0, 100, 200])], [("K", 2300)]⟩ "K"
    2500 2300 (by decide) (by decide) (by decide)

/-- Claim C9: the dispatch wrapper returns the Express limiter for
`framework = "express"` and silently returns nothing (`undefined`, modelled
as `none`) for every other tag — it never raises. -/
theorem rateLimit_dispatch (obj : Options) :
    (obj.framework = "express" → rateLimit obj = some (createExpressLimiter obj.cfg)) ∧
    (obj.framework ≠ "express" → rateLimit obj = none) := by
  constructor
  · intro h
    simp [rateLimit, h]
  · intro h
    simp [rateLimit, h]

/-- Witness for `rateLimit_dispatch` on the tags `"express"` and `"koa"`. -/
theorem rateLimit_dispatch_witness :
    rateLimit ⟨"express", ⟨100, 60000, 60000⟩⟩
      = some (createExpressLimiter ⟨100, 60000, 60000⟩) ∧
    rateLimit ⟨"koa", ⟨100, 60000, 60000⟩⟩ = none :=
  ⟨(rateLimit_dispatch ⟨"express", ⟨100, 60000, 60000⟩⟩).1 rfl,
   (rateLimit_dispatch ⟨"koa", ⟨100, 60000, 60000⟩⟩).2 (by decide)⟩

/-- Claim C8: with `max ≤ 0` no call is ever allowed — in particular the
very first call for an untracked key is denied and creates the cooldown
`blockedUntil = now + cooldownMs` — and every call during the resulting
active cooldown keeps being denied (no call returns `Allow` at all). -/
theorem max_nonpos_blocks_all (cfg : Config) (hmax : cfg.max ≤ 0) :
    (∀ st key now, ∃ r, (rateLimiter cfg st key now).1 = Decision.Deny r) ∧
    (∀ st key now, Store.get st.requestStore key = none →
      Store.get st.cooldownStore key = none →
      Store.get (rateLimiter cfg st key now).2.cooldownStore key
        = some (now + cfg.cooldownMs)) := by
  have hcond : ∀ (w : List Int) (now : Int),
      cfg.max ≤ ((pruneWindow cfg.windowMs now w).length : Int) := by
    intro w now
    exact le_trans hmax (Int.natCast_nonneg _)
  constructor
  · intro st key now
    cases hcd : Store.get st.cooldownStore key with
    | some blockedUntil =>
        by_cases hact : 0 < blockedUntil - now
        · exact ⟨ceilDiv (blockedUntil - now) 1000, by simp [rateLimiter, hcd, hact]⟩
        · refine ⟨ceilDiv cfg.cooldownMs 1000, ?_⟩
          simp only [rateLimiter, hcd]
          rw [if_neg hact, windowStep_deny _ _ _ _ (Store.get_del_self _ _) (hcond _ _)]
    | none =>
        refine ⟨ceilDiv cfg.cooldownMs 1000, ?_⟩
        simp only [rateLimiter, hcd]
        rw [windowStep_deny _ _ _ _ hcd (hcond _ _)]
  · intro st key now hreq hcd
    simp only [rateLimiter, hcd]
    rw [windowStep_deny _ _ _ _ hcd (hcond _ _)]
    exact Store.get_set_self _ _ _

/-- Witness for `max_nonpos_blocks_all` with `max = 0` on a fresh key. -/
theorem max_nonpos_blocks_all_witness :
    (∃ r, (rateLimiter ⟨0, 1000, 2000⟩ emptyState "K" 5).1 = Decision.Deny r) ∧
    Store.get (rateLimiter ⟨0, 1000, 2000⟩ emptyState "K" 5).2.cooldownStore "K"
      = some (5 + 2000) :=
  ⟨(max_nonpos_blocks_all ⟨0, 1000, 2000⟩ (by decide)).1 emptyState "K" 5,
   (max_nonpos_blocks_all ⟨0, 1000, 2000⟩ (by decide)).2 emptyState "K" 5 rfl rfl⟩

theorem windowStep_deny_spec (cfg : Config) (hcd1 : 1 ≤ cfg.cooldownMs)
    (st : LimiterState) (key : String) (now r : Int)
    (hc : Store.get st.cooldownStore key = none)
    (h : (windowStep cfg st key now).1 = Decision.Deny r) :
    ∃ blockedUntil,
      Store.get (windowStep cfg st key now).2.cooldownStore key = some blockedUntil ∧
      r = ceilDiv (blockedUntil - now) 1000 ∧ 1 ≤ r := by
  by_cases hth : cfg.max ≤
      ((pruneWindow cfg.windowMs now ((Store.get st.requestStore key).getD [])).length : Int)
  · rw [windowStep_deny cfg st key now hc hth] at h ⊢
    simp only [Decision.Deny.injEq] at h
    refine ⟨now + cfg.cooldownMs, Store.get_set_self _ _ _, ?_, ?_⟩
    · rw [show now + cfg.cooldownMs - now = cfg.cooldownMs by ring]
      exact h.symm
    · rw [← h]
      exact one_le_ceilDiv hcd1
  · rw [windowStep_allow cfg st key now hth] at h
    exact absurd h (by simp)

/-- Claim C6: every denial carries
`remainingTime = ceil((blockedUntil - now) / 1000)` computed from the
cooldown stored at the end of the call, and with `cooldownMs ≥ 1` that value
is at least `1`, on both the active-cooldown and the threshold-reached
denial paths. -/
theorem deny_remaining_time (cfg : Config) (hcd1 : 1 ≤ cfg.cooldownMs)
    (st : LimiterState) (key : String) (now r : Int)
    (h : (rateLimiter cfg st key now).1 = Decision.Deny r) :
    ∃ blockedUntil,
      Store.get (rateLimiter cfg st key now).2.cooldownStore key = some blockedUntil ∧
      r = ceilDiv (blockedUntil - now) 1000 ∧ 1 ≤ r := by
  cases hcd : Store.get st.cooldownStore key with
  | some blockedUntil =>
      by_cases hact : 0 < blockedUntil - now
      · have heq : rateLimiter cfg st key now
            = (Decision.Deny (ceilDiv (blockedUntil - now) 1000), st) := by
          simp [rateLimiter, hcd, hact]
        rw [heq] at h ⊢
        simp only [Decision.Deny.injEq] at h
        exact ⟨blockedUntil, hcd, h.symm, h ▸ one_le_ceilDiv (by omega)⟩
      · have hred : rateLimiter cfg st key now
            = windowStep cfg
                ⟨Store.del st.requestStore key, Store.del st.cooldownStore key⟩ key now := by
          simp only [rateLimiter, hcd]
          rw [if_neg hact]
        rw [hred] at h ⊢
        exact windowStep_deny_spec cfg hcd1 _ key now r (Store.get_del_self _ _) h
  | none =>
      have hred : rateLimiter cfg st key now = windowStep cfg st key now := by
        simp only [rateLimiter, hcd]
      rw [hred] at h ⊢
      exact windowStep_deny_spec cfg hcd1 st key now r hcd h

/-- Witness for `deny_remaining_time`: `max = 0`, `cooldownMs = 2000`, first
call denied with `remainingTime = 2` and cooldown stored at `2005`. -/
theorem deny_remaining_time_witness :
    ∃ blockedUntil,
      Store.get (rateLimiter ⟨0, 1000, 2000⟩ emptyState "K" 5).2.cooldownStore "K"
        = some blockedUntil ∧
      (2 : Int) = ceilDiv (blockedUntil - 5) 1000 ∧ (1 : Int) ≤ 2 :=
  deny_remaining_time ⟨0, 1000, 2000⟩ (by decide) emptyState "K" 5 2 (by decide)

/-- Claim C10: with `max ≥ 1`, a denied call never appends its timestamp —
the key's stored window is exactly what it was before the call — while an
allowed call stores a window ending in the appended `now`. -/
theorem deny_no_append (cfg : Config) (hmax : 1 ≤ cfg.max)
    (st : LimiterState) (key : String) (now : Int) :
    ((∃ r, (rateLimiter cfg st key now).1 = Decision.Deny r) →
        Store.get (rateLimiter cfg st key now).2.requestStore key
          = Store.get st.requestStore key) ∧
    ((rateLimiter cfg st key now).1 = Decision.Allow →
        ∃ w, Store.get (rateLimiter cfg st key now).2.requestStore key
          = some (w ++ [now])) := by
  cases hcd : Store.get st.cooldownStore key with
  | some blockedUntil =>
      by_cases hact : 0 < blockedUntil - now
      · have heq : rateLimiter cfg st key now
            = (Decision.Deny (ceilDiv (blockedUntil - now) 1000), st) := by
          simp [rateLimiter, hcd, hact]
        rw [heq]
        exact ⟨fun _ => rfl, fun hall => by simp at hall⟩
      · have hred : rateLimiter cfg st key now
            = windowStep cfg
                ⟨Store.del st.requestStore key, Store.del st.cooldownStore key⟩ key now := by
          simp only [rateLimiter, hcd]
          rw [if_neg hact]
        rw [hred, windowStep_untracked cfg _ key now (Store.get_del_self _ _) hmax]
        constructor
        · intro hdeny
          obtain ⟨r, hr⟩ := hdeny
          simp at hr
        · intro _
          exact ⟨[], by simp⟩
  | none =>
      have hred : rateLimiter cfg st key now = windowStep cfg st key now := by
        simp only [rateLimiter, hcd]
      rw [hred]
      by_cases hth : cfg.max ≤
          ((pruneWindow cfg.windowMs now ((Store.get st.requestStore key).getD [])).length : Int)
      · have hsome : (Store.get st.requestStore key).isSome := by
          cases hw : Store.get st.requestStore key with
          | some w => rfl
          | none =>
              rw [hw] at hth
              simp only [Option.getD_none] at hth
              exact absurd hth (by
                have : pruneWindow cfg.windowMs now [] = [] := rfl
                rw [this]
                simp only [List.length_nil, Nat.cast_zero]
                omega)
        constructor
        · intro _
          rw [windowStep_requestStore_deny cfg st key now hth,
            ensureEntry_of_isSome st.requestStore key hsome]
        · intro hall
          rw [windowStep_fst cfg st key now, if_pos hth] at hall
          simp at hall
      · rw [windowStep_allow cfg st key now hth]
        constructor
        · intro hdeny
          obtain ⟨r, hr⟩ := hdeny
          simp at hr
        · intro _
          exact ⟨pruneWindow cfg.windowMs now ((Store.get st.requestStore key).getD []),
            Store.get_set_self _ _ _⟩

/-- Witness for `deny_no_append`: a fresh key is allowed and its window
becomes `[] ++ [5]`; a blocked key is denied and its window is untouched. -/
theorem deny_no_append_witness :
    (((∃ r, (rateLimiter ⟨1, 1000, 2000⟩ emptyState "K" 5).1 = Decision.Deny r) →
        Store.get (rateLimiter ⟨1, 1000, 2000⟩ emptyState "K" 5).2.requestStore "K"
          = Store.get emptyState.requestStore "K") ∧
     ((rateLimiter ⟨1, 1000, 2000⟩ emptyState "K" 5).1 = Decision.Allow →
        ∃ w, Store.get (rateLimiter ⟨1, 1000, 2000⟩ emptyState "K" 5).2.requestStore "K"
          = some (w ++ [5]))) ∧
    ∃ w, Store.get (rateLimiter ⟨1, 1000, 2000⟩ emptyState "K" 5).2.requestStore "K"
      = some (w ++ [5]) :=
  ⟨deny_no_append ⟨1, 1000, 2000⟩ (by decide) emptyState "K" 5,
   (deny_no_append ⟨1, 1000, 2000⟩ (by decide) emptyState "K" 5).2 (by decide)⟩

theorem windowStep_fst_congr (cfg : Config) (st st' : LimiterState) (key : String)
    (now : Int)
    (hreq : Store.get st.requestStore key = Store.get st'.requestStore key)
    (hcd : Store.get st.cooldownStore key = Store.get st'.cooldownStore key) :
    (windowStep cfg st key now).1 = (windowStep cfg st' key now).1 := by
  rw [windowStep_fst, windowStep_fst, hreq, hcd]

theorem rateLimiter_fst_congr (cfg : Config) (st st' : LimiterState) (key : String)
    (now : Int)
    (hreq : Store.get st.requestStore key = Store.get st'.requestStore key)
    (hcd : Store.get st.cooldownStore key = Store.get st'.cooldownStore key) :
    (rateLimiter cfg st key now).1 = (rateLimiter cfg st' key now).1 := by
  cases hc : Store.get st.cooldownStore key with
  | some blockedUntil =>
      have hc' : Store.get st'.cooldownStore key = some blockedUntil := hcd.symm.trans hc
      by_cases hact : 0 < blockedUntil - now
      · simp [rateLimiter, hc, hc', hact]
      · simp only [rateLimiter, hc, hc']
        rw [if_neg hact, if_neg hact]
        apply windowStep_fst_congr
        · simp
        · simp
  | none =>
      have hc' : Store.get st'.cooldownStore key = none := hcd.symm.trans hc
      simp only [rateLimiter, hc, hc']
      exact windowStep_fst_congr cfg st st' key now hreq hcd

/-- Claim C7: a call for key `A` mutates no entry of key `B ≠ A` in either
store, and its decision depends only on key `A`'s entries — two states
agreeing at `A` produce the same decision. -/
theorem key_isolation (cfg : Config) (st st' : LimiterState) (keyA keyB : String)
    (now : Int) (hne : keyB ≠ keyA)
    (hreq : Store.get st.requestStore keyA = Store.get st'.requestStore keyA)
    (hcd : Store.get st.cooldownStore keyA = Store.get st'.cooldownStore keyA) :
    Store.get (rateLimiter cfg st keyA now).2.requestStore keyB
        = Store.get st.requestStore keyB ∧
    Store.get (rateLimiter cfg st keyA now).2.cooldownStore keyB
        = Store.get st.cooldownStore keyB ∧
    (rateLimiter cfg st keyA now).1 = (rateLimiter cfg st' keyA now).1 :=
  ⟨(rateLimiter_frame cfg st keyA now keyB hne).1,
   (rateLimiter_frame cfg st keyA now keyB hne).2,
   rateLimiter_fst_congr cfg st st' keyA now hreq hcd⟩

/-- Witness for `key_isolation`: two states agreeing at `"A"` but differing
at `"B"`; the call for `"A"` leaves `"B"`'s entries alone and decides the
same in both. -/
theorem key_isolation_witness :
    Store.get (rateLimiter ⟨3, 1000, 2000⟩
        ⟨[("A", [1]), ("B", [2])], []⟩ "A" 10).2.requestStore "B"
      = Store.get (⟨[("A", [1]), ("B", [2])], []⟩ : LimiterState).requestStore "B" ∧
    Store.get (rateLimiter ⟨3, 1000, 2000⟩
        ⟨[("A", [1]), ("B", [2])], []⟩ "A" 10).2.cooldownStore "B"
      = Store.get (⟨[("A", [1]), ("B", [2])], []⟩ : LimiterState).cooldownStore "B" ∧
    (rateLimiter ⟨3, 1000, 2000⟩ ⟨[("A", [1]), ("B", [2])], []⟩ "A" 10).1
      = (rateLimiter ⟨3, 1000, 2000⟩ ⟨[("A", [1])], [("B", 99)]⟩ "A" 10).1 :=
  key_isolation ⟨3, 1000, 2000⟩ ⟨[("A", [1]), ("B", [2])], []⟩
    ⟨[("A", [1])], [("B", 99)]⟩ "A" "B" 10 (by decide) (by decide) (by decide)

theorem windowStep_window_len (cfg : Config)
    (st : LimiterState) (key : String) (now : Int)
    (hinv : ∀ k, (((Store.get st.requestStore k).getD []).length : Int) ≤ cfg.max) :
    ∀ k, (((Store.get (windowStep cfg st key now).2.requestStore k).getD []).length : Int)
        ≤ cfg.max := by
  intro k
  by_cases hk : k = key
  · subst hk
    by_cases hth : cfg.max ≤
        ((pruneWindow cfg.windowMs now ((Store.get st.requestStore k).getD [])).length : Int)
    · rw [windowStep_requestStore_deny cfg st k now hth, ensureEntry_get_self]
      simpa using hinv k
    · rw [windowStep_allow cfg st k now hth]
      simp only [Store.get_set_self, Option.getD_some, List.length_append,
        List.length_cons, List.length_nil]
      push_cast at hth ⊢
      omega
  · rw [(windowStep_frame cfg st key now k hk).1]
    exact hinv k

theorem rateLimiter_window_len (cfg : Config) (hmax : 0 ≤ cfg.max)
    (st : LimiterState) (key : String) (now : Int)
    (hinv : ∀ k, (((Store.get st.requestStore k).getD []).length : Int) ≤ cfg.max) :
    ∀ k, (((Store.get (rateLimiter cfg st key now).2.requestStore k).getD []).length : Int)
        ≤ cfg.max := by
  cases hcd : Store.get st.cooldownStore key with
  | some blockedUntil =>
      by_cases hact : 0 < blockedUntil - now
      · have heq : rateLimiter cfg st key now
            = (Decision.Deny (ceilDiv (blockedUntil - now) 1000), st) := by
          simp [rateLimiter, hcd, hact]
        rw [heq]
        exact hinv
      · have hred : rateLimiter cfg st key now
            = windowStep cfg
                ⟨Store.del st.requestStore key, Store.del st.cooldownStore key⟩ key now := by
          simp only [rateLimiter, hcd]
          rw [if_neg hact]
        rw [hred]
        apply windowStep_window_len cfg _ key now
        intro k
        by_cases hk : k = key
        · subst hk
          rw [Store.get_del_self]
          simpa using hmax
        · rw [Store.get_del_ne _ _ _ hk]
          exact hinv k
  | none =>
      have hred : rateLimiter cfg st key now = windowStep cfg st key now := by
        simp only [rateLimiter, hcd]
      rw [hred]
      exact windowStep_window_len cfg st key now hinv

theorem runCalls_window_len (cfg : Config) (hmax : 0 ≤ cfg.max) :
    ∀ (calls : List (String × Int)) (st : LimiterState),
      (∀ k, (((Store.get st.requestStore k).getD []).length : Int) ≤ cfg.max) →
      ∀ k, (((Store.get (runCalls cfg st calls).2.requestStore k).getD []).length : Int)
          ≤ cfg.max := by
  intro calls
  induction calls with
  | nil =>
      intro st hinv k
      exact hinv k
  | cons c rest ih =>
      intro st hinv k
      obtain ⟨ck, ct⟩ := c
      simp only [runCalls]
      exact ih _ (rateLimiter_window_len cfg hmax st ck ct hinv) k

/-- Claim C5: with `max ≥ 0`, after any sequence of calls from the empty
stores (hence immediately after each call of any sequence — every prefix is
itself such a sequence), every key's stored window holds at most `max`
timestamps. -/
theorem window_bound (cfg : Config) (hmax : 0 ≤ cfg.max) (calls : List (String × Int))
    (key : String) :
    (((Store.get (runCalls cfg emptyState calls).2.requestStore key).getD []).length : Int)
      ≤ cfg.max :=
  runCalls_window_len cfg hmax calls emptyState
    (fun k => by simpa [emptyState, Store.get] using hmax) key

/-- Witness for `window_bound`: three calls, `max = 2`. -/
theorem window_bound_witness :
    (((Store.get (runCalls ⟨2, 1000, 1000⟩ emptyState
        [("K", 0), ("K", 1), ("K", 2)]).2.requestStore "K").getD []).length : Int)
      ≤ 2 :=
  window_bound ⟨2, 1000, 1000⟩ (by decide) [("K", 0), ("K", 1), ("K", 2)] "K"

/-- Claim C4 is false as stated: with `max = 1`, `windowMs = 1000`,
`cooldownMs = 10000`, the calls for `"K"` at `t = 0, 100, 2000` leave the
stored window equal to `[0]` after the third (denied, active-cooldown)
call, and `2000 - 0 < windowMs` fails — the stale timestamp was not pruned
by that call. -/
theorem stale_window_after_cooldown_deny :
    (runCalls ⟨1, 1000, 10000⟩ emptyState [("K", 0), ("K", 100), ("K", 2000)]).1
      = [Decision.Allow, Decision.Deny 10, Decision.Deny 9] ∧
    (0 : Int) ∈ (Store.get (runCalls ⟨1, 1000, 10000⟩ emptyState
        [("K", 0), ("K", 100), ("K", 2000)]).2.requestStore "K").getD [] ∧
    ¬ ((2000 : Int) - 0 < (⟨1, 1000, 10000⟩ : Config).windowMs) :=
  ⟨by decide, by decide, by decide⟩

theorem windowStep_window_fresh (cfg : Config) (hW : 0 < cfg.windowMs)
    (st : LimiterState) (key : String) (now : Int)
    (hinv : (((Store.get st.requestStore key).getD []).length : Int) ≤ cfg.max) :
    ∀ t ∈ (Store.get (windowStep cfg st key now).2.requestStore key).getD [],
      now - t < cfg.windowMs := by
  by_cases hth : cfg.max ≤
      ((pruneWindow cfg.windowMs now ((Store.get st.requestStore key).getD [])).length : Int)
  · rw [windowStep_requestStore_deny cfg st key now hth, ensureEntry_get_self]
    simp only [Option.getD_some]
    apply pruneWindow_full
    have hcast : (((Store.get st.requestStore key).getD []).length : Int)
        ≤ ((pruneWindow cfg.windowMs now ((Store.get st.requestStore key).getD [])).length : Int) :=
      le_trans hinv hth
    exact_mod_cast hcast
  · rw [windowStep_allow cfg st key now hth]
    simp only [Store.get_set_self, Option.getD_some]
    intro t ht
    rcases List.mem_append.mp ht with hmem | hmem
    · exact (mem_pruneWindow hmem).2
    · rw [List.mem_singleton.mp hmem]
      omega

theorem rateLimiter_window_fresh (cfg : Config) (hW : 0 < cfg.windowMs)
    (hmax : 0 ≤ cfg.max) (st : LimiterState) (key : String) (now : Int)
    (hinv : (((Store.get st.requestStore key).getD []).length : Int) ≤ cfg.max)
    (hpath : ∀ blockedUntil, Store.get st.cooldownStore key = some blockedUntil →
        blockedUntil - now ≤ 0) :
    ∀ t ∈ (Store.get (rateLimiter cfg st key now).2.requestStore key).getD [],
      now - t < cfg.windowMs := by
  cases hcd : Store.get st.cooldownStore key with
  | some blockedUntil =>
      have hred : rateLimiter cfg st key now
          = windowStep cfg
              ⟨Store.del st.requestStore key, Store.del st.cooldownStore key⟩ key now := by
        simp only [rateLimiter, hcd]
        rw [if_neg (by have := hpath blockedUntil hcd; omega)]
      rw [hred]
      apply windowStep_window_fresh cfg hW _ key now
      rw [Store.get_del_self]
      simpa using hmax
  | none =>
      have hred : rateLimiter cfg st key now = windowStep cfg st key now := by
        simp only [rateLimiter, hcd]
      rw [hred]
      exact windowStep_window_fresh cfg hW st key now hinv

/-- Claim C4 (amended): after a non-bypassed call at time `now` for a key,
provided the call is not the active-cooldown denial (which touches no
window state and can retain stale timestamps, see
`stale_window_after_cooldown_deny`), and with `windowMs > 0`, `max ≥ 0`,
and a pre-state reached from empty stores, every timestamp `t` remaining in
the key's stored window satisfies `now - t < windowMs`. -/
theorem window_pruned_after_call (cfg : Config) (hW : 0 < cfg.windowMs)
    (hmax : 0 ≤ cfg.max) (calls : List (String × Int)) (key : String) (now : Int)
    (hpath : ∀ blockedUntil,
        Store.get (runCalls cfg emptyState calls).2.cooldownStore key = some blockedUntil →
        blockedUntil - now ≤ 0) :
    ∀ t ∈ (Store.get (rateLimiter cfg (runCalls cfg emptyState calls).2 key
        now).2.requestStore key).getD [],
      now - t < cfg.windowMs :=
  rateLimiter_window_fresh cfg hW hmax _ key now
    (runCalls_window_len cfg hmax calls emptyState
      (fun k => by simpa [emptyState, Store.get] using hmax) key) hpath

/-- Witness for `window_pruned_after_call`: one prior call at `t = 0`, next
call at `now = 2000`; the retained timestamp is `2000` itself. -/
theorem window_pruned_after_call_witness :
    (2000 : Int) - 2000 < (⟨1, 1000, 10⟩ : Config).windowMs :=
  window_pruned_after_call ⟨1, 1000, 10⟩ (by decide) (by decide) [("K", 0)] "K" 2000
    (fun blockedUntil hbu => by
      rw [show Store.get (runCalls ⟨1, 1000, 10⟩ emptyState
          [("K", 0)]).2.cooldownStore "K" = none by decide] at hbu
      exact Option.noConfusion hbu) 2000 (by decide)

theorem runKey_allows (cfg : Config) (key : String) :
    ∀ (ts : List Int) (acc : List Int) (st : LimiterState),
      Store.get st.cooldownStore key = none →
      (Store.get st.requestStore key).getD [] = acc →
      (acc.length : Int) + ts.length ≤ cfg.max →
      (∀ t ∈ ts, ∀ a ∈ acc, t - a < cfg.windowMs) →
      List.Pairwise (fun a b => b - a < cfg.windowMs) ts →
      (runCalls cfg st (ts.map (fun t => (key, t)))).1
          = List.replicate ts.length Decision.Allow ∧
      (Store.get (runCalls cfg st (ts.map (fun t => (key, t)))).2.requestStore key).getD []
          = acc ++ ts ∧
      Store.get (runCalls cfg st (ts.map (fun t => (key, t)))).2.cooldownStore key
          = none := by
  intro ts
  induction ts with
  | nil =>
      intro acc st h1 h2 h3 h4 h5
      refine ⟨rfl, ?_, h1⟩
      simpa using h2
  | cons t rest ih =>
      intro acc st h1 h2 h3 h4 h5
      have hprune : pruneWindow cfg.windowMs t ((Store.get st.requestStore key).getD [])
          = acc := by
        rw [h2]
        exact pruneWindow_eq_self (fun a ha => h4 t (List.mem_cons_self _ _) a ha)
      have hcond : ¬ cfg.max ≤
          ((pruneWindow cfg.windowMs t ((Store.get st.requestStore key).getD [])).length :
            Int) := by
        rw [hprune]
        simp only [List.length_cons] at h3
        push_cast at h3 ⊢
        omega
      have hstep : rateLimiter cfg st key t
          = (Decision.Allow,
             ⟨Store.set (ensureEntry st.requestStore key) key (acc ++ [t]),
              st.cooldownStore⟩) := by
        simp only [rateLimiter, h1]
        rw [windowStep_allow cfg st key t hcond, hprune]
      have hreq' : (Store.get (Store.set (ensureEntry st.requestStore key) key
          (acc ++ [t])) key).getD [] = acc ++ [t] := by
        rw [Store.get_set_self]
        rfl
      have hlen' : (((acc ++ [t]).length : Nat) : Int) + rest.length ≤ cfg.max := by
        simp only [List.length_append, List.length_cons, List.length_nil] at h3 ⊢
        push_cast at h3 ⊢
        omega
      have hwin' : ∀ t' ∈ rest, ∀ a ∈ acc ++ [t], t' - a < cfg.windowMs := by
        intro t' ht' a ha
        rcases List.mem_append.mp ha with hmem | hmem
        · exact h4 t' (List.mem_cons_of_mem _ ht') a hmem
        · rw [List.mem_singleton.mp hmem]
          exact List.rel_of_pairwise_cons h5 ht'
      obtain ⟨ih1, ih2, ih3⟩ := ih (acc ++ [t])
        ⟨Store.set (ensureEntry st.requestStore key) key (acc ++ [t]), st.cooldownStore⟩
        h1 hreq' hlen' hwin' (List.pairwise_cons.mp h5).2
      have hrun : runCalls cfg st ((t :: rest).map (fun x => (key, x)))
          = (Decision.Allow ::
              (runCalls cfg
                ⟨Store.set (ensureEntry st.requestStore key) key (acc ++ [t]),
                 st.cooldownStore⟩ (rest.map (fun x => (key, x)))).1,
             (runCalls cfg
                ⟨Store.set (ensureEntry st.requestStore key) key (acc ++ [t]),
                 st.cooldownStore⟩ (rest.map (fun x => (key, x)))).2) := by
        simp only [List.map_cons, runCalls, hstep]
      rw [hrun]
      refine ⟨?_, ?_, ih3⟩
      · simp only [List.length_cons, List.replicate_succ, ih1]
      · rw [ih2, List.append_assoc, List.singleton_append]

/-- Claim C1: for an untracked key and `max ≥ 1`, a monotone sequence of
`max` calls whose timestamps all lie within `windowMs` of the first are all
allowed, and a following call whose pruned window still retains all `max`
timestamps is denied (with the newly created cooldown's `remainingTime`). -/
theorem allows_max_then_denies (cfg : Config) (st : LimiterState) (key : String)
    (_hmax : 1 ≤ cfg.max)
    (hreq : Store.get st.requestStore key = none)
    (hcd : Store.get st.cooldownStore key = none)
    (t0 : Int) (rest : List Int) (tN : Int)
    (hlen : (((t0 :: rest).length : Nat) : Int) = cfg.max)
    (hchain : List.Chain' (· ≤ ·) (t0 :: rest))
    (hwin : ∀ t ∈ t0 :: rest, t - t0 < cfg.windowMs)
    (hN : ∀ t ∈ t0 :: rest, tN - t < cfg.windowMs) :
    (runCalls cfg st ((t0 :: rest).map (fun t => (key, t)))).1
        = List.replicate (t0 :: rest).length Decision.Allow ∧
    (rateLimiter cfg (runCalls cfg st ((t0 :: rest).map (fun t => (key, t)))).2 key tN).1
        = Decision.Deny (ceilDiv cfg.cooldownMs 1000) := by
  have hpw_le : List.Pairwise (· ≤ ·) (t0 :: rest) := List.chain'_iff_pairwise.mp hchain
  have hle0 : ∀ a ∈ t0 :: rest, t0 ≤ a := by
    intro a ha
    rcases List.mem_cons.mp ha with h | h
    · exact h ▸ le_refl t0
    · exact List.rel_of_pairwise_cons hpw_le h
  have hpw : List.Pairwise (fun a b => b - a < cfg.windowMs) (t0 :: rest) :=
    hpw_le.imp_of_mem (fun {a b} ha hb hab => by
      have hA := hle0 a ha
      have hB := hwin b hb
      omega)
  obtain ⟨h1, h2, h3⟩ := runKey_allows cfg key (t0 :: rest) [] st hcd
    (by rw [hreq]; rfl)
    (by simpa using le_of_eq hlen)
    (fun t _ a ha => absurd ha (List.not_mem_nil a)) hpw
  refine ⟨h1, ?_⟩
  have h2' : (Store.get (runCalls cfg st
      ((t0 :: rest).map (fun t => (key, t)))).2.requestStore key).getD []
      = t0 :: rest := by
    rw [h2, List.nil_append]
  have hprune : pruneWindow cfg.windowMs tN
      ((Store.get (runCalls cfg st
        ((t0 :: rest).map (fun t => (key, t)))).2.requestStore key).getD [])
      = t0 :: rest := by
    rw [h2']
    exact pruneWindow_eq_self hN
  have hcond : cfg.max ≤
      ((pruneWindow cfg.windowMs tN
        ((Store.get (runCalls cfg st
          ((t0 :: rest).map (fun t => (key, t)))).2.requestStore key).getD [])).length :
        Int) := by
    rw [hprune]
    exact le_of_eq hlen.symm
  have hred : rateLimiter cfg
      (runCalls cfg st ((t0 :: rest).map (fun t => (key, t)))).2 key tN
      = windowStep cfg
          (runCalls cfg st ((t0 :: rest).map (fun t => (key, t)))).2 key tN := by
    simp only [rateLimiter, h3]
  rw [hred, windowStep_deny _ _ _ _ h3 hcond]

/-- Witness for `allows_max_then_denies`: the spec scenario — `max = 3`,
calls at `0, 100, 200` all allowed, the call at `300` denied with
`remainingTime = ceil(2000 / 1000)`. -/
theorem allows_max_then_denies_witness :
    (runCalls ⟨3, 1000, 2000⟩ emptyState
        (([0, 100, 200] : List Int).map (fun t => ("K", t)))).1
      = List.replicate 3 Decision.Allow ∧
    (rateLimiter ⟨3, 1000, 2000⟩
        (runCalls ⟨3, 1000, 2000⟩ emptyState
          (([0, 100, 200] : List Int).map (fun t => ("K", t)))).2 "K" 300).1
      = Decision.Deny (ceilDiv 2000 1000) :=
  allows_max_then_denies ⟨3, 1000, 2000⟩ emptyState "K" (by decide) rfl rfl
    0 [100, 200] 300 (by decide) (by norm_num [List.chain'_cons]) (by decide) (by decide)

end RateLimit
